import Mathlib

/-
  Verification of the transport repository (src/pqueue.py, src/packet.py,
  src/TCPSimulator.py) against its design specification.

  The Python modules are shallowly embedded: Python ints become Nat,
  bytes become List Nat (each element reduced mod 256 where the code
  masks with 0xFF), dicts become association lists, and code that raises
  an exception returns an `Except PyErr` value.  The backing array of the
  priority queue is modeled by its live prefix (the indices below
  self.count): expandCapacity copies exactly that prefix into the larger
  array and the heap code never reads an index at or above count, so the
  None padding carries no information.
-/

set_option maxHeartbeats 1000000

/-- The kinds of Python exception the embedded code can raise. -/
inductive PyErr where
  | nameError
  | attributeError
  | typeError
  | indexError
deriving DecidableEq

/-- src/pqueue.py, PQEntry (lines 119-123): a value together with its
priority and the insertion timestamp used to break ties. -/
structure PQEntry (α : Type) where
  value : α
  priority : Nat
  timestamp : Nat
deriving DecidableEq, Inhabited

/-- src/pqueue.py, PQEntry.__lt__ (lines 124-129): lexicographic strict
comparison on (priority, timestamp). -/
def PQEntry.lt {α : Type} (a b : PQEntry α) : Bool :=
  if a.priority < b.priority then true
  else if b.priority < a.priority then false
  else decide (a.timestamp < b.timestamp)

/-- The non-strict order induced by PQEntry.__lt__: `a` may come out of the
heap no later than `b`.  Entries with equal keys are related both ways. -/
def entryLE {α : Type} (a b : PQEntry α) : Prop := PQEntry.lt b a = false

theorem PQEntry.lt_iff {α : Type} (a b : PQEntry α) :
    PQEntry.lt a b = true ↔
      (a.priority < b.priority ∨
        (a.priority = b.priority ∧ a.timestamp < b.timestamp)) := by
  unfold PQEntry.lt
  by_cases h1 : a.priority < b.priority <;>
    by_cases h2 : b.priority < a.priority <;>
      simp [h1, h2] <;> omega

theorem entryLE_iff {α : Type} (a b : PQEntry α) :
    entryLE a b ↔
      (a.priority < b.priority ∨
        (a.priority = b.priority ∧ a.timestamp ≤ b.timestamp)) := by
  unfold entryLE
  rw [← Bool.not_eq_true, not_iff_comm, PQEntry.lt_iff]
  omega

theorem entryLE_refl {α : Type} (a : PQEntry α) : entryLE a a := by
  rw [entryLE_iff]; omega

theorem entryLE_trans {α : Type} {a b c : PQEntry α}
    (h1 : entryLE a b) (h2 : entryLE b c) : entryLE a c := by
  rw [entryLE_iff] at h1 h2 ⊢; omega

theorem entryLE_total {α : Type} (a b : PQEntry α) : entryLE a b ∨ entryLE b a := by
  rw [entryLE_iff, entryLE_iff]; omega

/-- Mutually ≤ entries have equal keys (they may still differ in value). -/
theorem entryLE_antisymm_keys {α : Type} {a b : PQEntry α}
    (h1 : entryLE a b) (h2 : entryLE b a) :
    a.priority = b.priority ∧ a.timestamp = b.timestamp := by
  rw [entryLE_iff] at h1 h2; omega

theorem entryLE_of_lt {α : Type} {a b : PQEntry α}
    (h : PQEntry.lt a b = true) : entryLE a b := by
  rw [entryLE_iff]; rw [PQEntry.lt_iff] at h; omega

theorem PQEntry.lt_trans {α : Type} {a b c : PQEntry α}
    (h1 : PQEntry.lt a b = true) (h2 : PQEntry.lt b c = true) :
    PQEntry.lt a c = true := by
  rw [PQEntry.lt_iff] at h1 h2 ⊢; omega

instance {α : Type} : DecidableRel (@entryLE α) := fun a b =>
  instDecidableEqBool (PQEntry.lt b a) false

instance {α : Type} : IsTotal (PQEntry α) entryLE := ⟨entryLE_total⟩

instance {α : Type} : IsTrans (PQEntry α) entryLE :=
  ⟨fun _ _ _ => entryLE_trans⟩

/- List index helpers used to model Python array assignment and swaps. -/

theorem getD_set_self {β : Type} (l : List β) (i : Nat) (x d : β)
    (h : i < l.length) : (l.set i x).getD i d = x := by
  simp [List.getD_eq_getElem?_getD, List.getElem?_set, h]

theorem getD_set_ne {β : Type} (l : List β) (i j : Nat) (x d : β)
    (h : i ≠ j) : (l.set i x).getD j d = l.getD j d := by
  simp [List.getD_eq_getElem?_getD, List.getElem?_set, h]

theorem set_getD_self {β : Type} :
    ∀ (l : List β) (i : Nat) (d : β), i < l.length →
      l.set i (l.getD i d) = l
  | [], i, _, h => by simp at h
  | _ :: _, 0, _, _ => by simp
  | a :: t, i + 1, d, h => by
      rw [List.getD_cons_succ, List.set_cons_succ,
        set_getD_self t i d (by simpa using h)]

/-- The Python idiom `array[i], array[j] = array[j], array[i]`. -/
def swapL {β : Type} (l : List β) (i j : Nat) (d : β) : List β :=
  (l.set i (l.getD j d)).set j (l.getD i d)

theorem length_swapL {β : Type} (l : List β) (i j : Nat) (d : β) :
    (swapL l i j d).length = l.length := by
  simp [swapL]

theorem getD_swapL_left {β : Type} (l : List β) (i j : Nat) (d : β)
    (hi : i < l.length) (_hj : j < l.length) :
    (swapL l i j d).getD i d = l.getD j d := by
  unfold swapL
  by_cases h : j = i
  · subst h
    rw [getD_set_self _ _ _ _ (by simpa using hi)]
  · rw [getD_set_ne _ _ _ _ _ h, getD_set_self _ _ _ _ hi]

theorem getD_swapL_right {β : Type} (l : List β) (i j : Nat) (d : β)
    (hj : j < l.length) :
    (swapL l i j d).getD j d = l.getD i d := by
  unfold swapL
  rw [getD_set_self _ _ _ _ (by simpa using hj)]

theorem getD_swapL_other {β : Type} (l : List β) (i j k : Nat) (d : β)
    (hki : k ≠ i) (hkj : k ≠ j) :
    (swapL l i j d).getD k d = l.getD k d := by
  unfold swapL
  rw [getD_set_ne _ _ _ _ _ (Ne.symm hkj), getD_set_ne _ _ _ _ _ (Ne.symm hki)]

theorem swap_cons_perm {β : Type} (d a : β) :
    ∀ (t : List β) (j : Nat), j < t.length →
      List.Perm (t.getD j d :: t.set j a) (a :: t)
  | [], j, h => by simp at h
  | b :: t, 0, _ => by
      simpa using List.Perm.swap a b t
  | b :: t, j + 1, h => by
      have ih := swap_cons_perm d a t j (by simpa using h)
      have h1 : List.Perm ((b :: t).getD (j + 1) d :: (b :: t).set (j + 1) a)
          (b :: t.getD j d :: t.set j a) := by
        simpa [List.getD_cons_succ] using List.Perm.swap b (t.getD j d) _
      exact (h1.trans (List.Perm.cons b ih)).trans (List.Perm.swap a b t)

theorem swapL_perm {β : Type} (d : β) :
    ∀ (l : List β) (i j : Nat), i < l.length → j < l.length →
      List.Perm (swapL l i j d) l
  | [], i, _, hi, _ => by simp at hi
  | a :: t, 0, 0, _, _ => by
      unfold swapL
      rw [set_getD_self _ _ _ (by simp), set_getD_self _ _ _ (by simp)]
  | a :: t, 0, j + 1, _, hj => by
      unfold swapL
      have hj' : j < t.length := by simpa using hj
      simpa [List.getD_cons_succ] using swap_cons_perm d a t j hj'
  | a :: t, i + 1, 0, hi, _ => by
      unfold swapL
      have hi' : i < t.length := by simpa using hi
      simpa [List.getD_cons_succ] using swap_cons_perm d a t i hi'
  | a :: t, i + 1, j + 1, hi, hj => by
      have ih := swapL_perm d t i j (by simpa using hi) (by simpa using hj)
      unfold swapL at ih ⊢
      simpa [List.getD_cons_succ] using List.Perm.cons a ih

theorem mem_swapL {β : Type} (d : β) (l : List β) (i j : Nat)
    (hi : i < l.length) (hj : j < l.length) {x : β} :
    x ∈ swapL l i j d ↔ x ∈ l :=
  (swapL_perm d l i j hi hj).mem_iff

/- ============================================================
   src/pqueue.py : the PriorityQueue class
   ============================================================ -/

/-- src/pqueue.py, PriorityQueue state (lines 18-23).  `array` is the live
prefix of the backing store (indices below self.count), so
`count = array.length`; `capacity` is the allocated size of the backing
store and `timestamp` the insertion counter. -/
structure PriorityQueue (α : Type) where
  array : List (PQEntry α)
  capacity : Nat
  timestamp : Nat
deriving DecidableEq, Inhabited

/-- INITIAL_CAPACITY (line 108). -/
def PriorityQueue.INITIAL_CAPACITY : Nat := 10

/-- PriorityQueue.__init__ (lines 18-23). -/
def PriorityQueue.empty {α : Type} : PriorityQueue α :=
  { array := [], capacity := PriorityQueue.INITIAL_CAPACITY, timestamp := 0 }

/-- self.count: the number of live entries. -/
def PriorityQueue.count {α : Type} (q : PriorityQueue α) : Nat :=
  q.array.length

/-- PriorityQueue.size (lines 25-27). -/
def PriorityQueue.size {α : Type} (q : PriorityQueue α) : Nat := q.count

/-- PriorityQueue.isEmpty (lines 29-31). -/
def PriorityQueue.isEmpty {α : Type} (q : PriorityQueue α) : Bool :=
  decide (q.count = 0)

/-- PriorityQueue.expandCapacity (lines 99-104): doubles the backing store
and copies the live prefix, which the embedding keeps as is. -/
def PriorityQueue.expandCapacity {α : Type} (q : PriorityQueue α) :
    PriorityQueue α :=
  { q with capacity := q.capacity * 2 }

/-- The sift-up loop of PriorityQueue.enqueue (lines 47-52).  The source
loop re-binds `index` to the parent after each swap; `fuel` bounds the
number of iterations and never runs out when `index ≤ fuel`, because the
parent index is strictly smaller than `index`. -/
def siftUpF {α : Type} [Inhabited α] :
    Nat → List (PQEntry α) → Nat → List (PQEntry α)
  | _, arr, 0 => arr
  | 0, arr, _ + 1 => arr
  | fuel + 1, arr, index + 1 =>
      let parent := (index + 1 - 1) / 2
      if PQEntry.lt (arr.getD parent default) (arr.getD (index + 1) default)
      then arr
      else siftUpF fuel (swapL arr parent (index + 1) default) parent

/-- PriorityQueue.enqueue (lines 37-52): grow if full, append the entry
with the next timestamp at index count, then sift it up. -/
def PriorityQueue.enqueue {α : Type} [Inhabited α]
    (q : PriorityQueue α) (value : α) (priority : Nat) : PriorityQueue α :=
  let q := if q.count = q.capacity then q.expandCapacity else q
  let index := q.array.length
  let entry : PQEntry α := ⟨value, priority, q.timestamp + 1⟩
  { q with
    array := siftUpF index (q.array ++ [entry]) index,
    timestamp := q.timestamp + 1 }

/-- The sift-down loop of PriorityQueue.dequeueWithPriority (lines 66-78).
`fuel` bounds the number of iterations; it never runs out when
`arr.length ≤ fuel + index` because the child index strictly grows. -/
def siftDownF {α : Type} [Inhabited α] :
    Nat → List (PQEntry α) → Nat → List (PQEntry α)
  | 0, arr, _ => arr
  | fuel + 1, arr, index =>
      let left := 2 * index + 1
      let right := 2 * index + 2
      if left ≥ arr.length then arr
      else
        let child :=
          if right < arr.length ∧
              PQEntry.lt (arr.getD right default) (arr.getD left default) = true
          then right else left
        if PQEntry.lt (arr.getD index default) (arr.getD child default)
        then arr
        else siftDownF fuel (swapL arr index child default) child

/-- PriorityQueue.dequeueWithPriority (lines 58-79): on an empty queue
raise IndexError; otherwise read the root pair, move the last live entry
to the root (count is decremented, modeled by `dropLast` after the copy)
and sift it down. -/
def PriorityQueue.dequeueWithPriority {α : Type} [Inhabited α]
    (q : PriorityQueue α) : Except PyErr ((α × Nat) × PriorityQueue α) :=
  if q.count = 0 then .error .indexError
  else
    let root := q.array.getD 0 default
    let pair := (root.value, root.priority)
    let arr := ((q.array.set 0 (q.array.getD (q.count - 1) default)).dropLast)
    .ok (pair, { q with array := siftDownF arr.length arr 0 })

/-- PriorityQueue.dequeue (lines 54-56).  The body is
`return dequeueWithPriority(self)[0]`: `dequeueWithPriority` is a method
of the class and is never bound as a module-level name, so the lookup of
the bare name raises NameError on every call, before the queue is read. -/
def PriorityQueue.dequeue {α : Type} (_ : PriorityQueue α) : Except PyErr α :=
  .error .nameError

/-- PriorityQueue.peek (lines 81-85). -/
def PriorityQueue.peek {α : Type} [Inhabited α] (q : PriorityQueue α) :
    Except PyErr α :=
  if q.count = 0 then .error .indexError
  else .ok (q.array.getD 0 default).value

/-- PriorityQueue.peekPriority (lines 87-91). -/
def PriorityQueue.peekPriority {α : Type} [Inhabited α]
    (q : PriorityQueue α) : Except PyErr Nat :=
  if q.count = 0 then .error .indexError
  else .ok (q.array.getD 0 default).priority

/- ============================================================
   Observable behaviour of the scheduler
   ============================================================ -/

/-- Schedule a list of (payload, time) pairs in order on a fresh queue. -/
def scheduleAll {α : Type} [Inhabited α] (xs : List (α × Nat)) :
    PriorityQueue α :=
  xs.foldl (fun q vp => q.enqueue vp.1 vp.2) PriorityQueue.empty

/-- Pop with `dequeueWithPriority` until the queue is empty, recording the
(payload, time) pairs in pop order; `fuel` bounds the number of pops. -/
def drainF {α : Type} [Inhabited α] :
    Nat → PriorityQueue α → List (α × Nat)
  | 0, _ => []
  | fuel + 1, q =>
      match q.dequeueWithPriority with
      | .error _ => []
      | .ok (pair, q') => pair :: drainF fuel q'

/-- Pop everything off the queue in order. -/
def drain {α : Type} [Inhabited α] (q : PriorityQueue α) : List (α × Nat) :=
  drainF q.count q

/-- The entries a schedule sequence creates: the k-th scheduled pair is
tagged with insertion counter k+1, exactly as enqueue assigns timestamps
on a fresh queue. -/
def entriesFrom {α : Type} (c : Nat) : List (α × Nat) → List (PQEntry α)
  | [] => []
  | vp :: rest => ⟨vp.1, vp.2, c + 1⟩ :: entriesFrom (c + 1) rest

/-- The dispatch order the specification demands: tag each scheduled
(payload, time) pair with its monotonically increasing insertion counter
and sort by time ascending, breaking ties by smaller counter first
(FIFO); `entryLE` is exactly that lexicographic order. -/
def stableSortByTime {α : Type} (xs : List (α × Nat)) : List (α × Nat) :=
  (List.insertionSort entryLE (entriesFrom 0 xs)).map
    (fun e => (e.value, e.priority))

/- ============================================================
   Heap invariants and correctness of the sift loops
   ============================================================ -/

/-- Index of the parent node in the implicit binary tree (line 48). -/
def Par (i : Nat) : Nat := (i - 1) / 2

theorem Par_lt {i : Nat} (h : 0 < i) : Par i < i := by
  unfold Par; omega

theorem Par_eq_iff {i c : Nat} (h : 0 < c) :
    Par c = i ↔ (c = 2 * i + 1 ∨ c = 2 * i + 2) := by
  unfold Par; omega

/-- The min-heap property: every node is no later than its children. -/
def IsHeap {α : Type} [Inhabited α] (l : List (PQEntry α)) : Prop :=
  ∀ i, 0 < i → i < l.length →
    entryLE (l.getD (Par i) default) (l.getD i default)

/-- Heap property everywhere except possibly on the edge into node n. -/
def HeapExceptAt {α : Type} [Inhabited α] (l : List (PQEntry α)) (n : Nat) :
    Prop :=
  ∀ i, 0 < i → i < l.length → i ≠ n →
    entryLE (l.getD (Par i) default) (l.getD i default)

/-- The parent of the hole dominates the hole's children (sift-up loop
invariant). -/
def GrandUpOK {α : Type} [Inhabited α] (l : List (PQEntry α)) (n : Nat) :
    Prop :=
  0 < n → ∀ c, c < l.length → Par c = n →
    entryLE (l.getD (Par n) default) (l.getD c default)

theorem siftUpF_zero {α : Type} [Inhabited α] (fuel : Nat)
    (l : List (PQEntry α)) : siftUpF fuel l 0 = l := by
  cases fuel <;> rfl

theorem siftUpF_succ {α : Type} [Inhabited α] (fuel k : Nat)
    (l : List (PQEntry α)) :
    siftUpF (fuel + 1) l (k + 1) =
      if PQEntry.lt (l.getD ((k + 1 - 1) / 2) default)
          (l.getD (k + 1) default)
      then l
      else siftUpF fuel (swapL l ((k + 1 - 1) / 2) (k + 1) default)
        ((k + 1 - 1) / 2) := rfl

theorem siftUpF_spec {α : Type} [Inhabited α] :
    ∀ (fuel i : Nat) (l : List (PQEntry α)), i ≤ fuel → i < l.length →
      HeapExceptAt l i → GrandUpOK l i →
      IsHeap (siftUpF fuel l i) ∧ List.Perm (siftUpF fuel l i) l := by
  intro fuel
  induction fuel with
  | zero =>
    intro i l hif _ hex _
    have hi0 : i = 0 := by omega
    subst hi0
    rw [siftUpF_zero]
    exact ⟨fun j h1 h2 => hex j h1 h2 (by omega), List.Perm.refl l⟩
  | succ f ih =>
    intro i l hif hlen hex hgr
    match i, hif with
    | 0, _ =>
      rw [siftUpF_zero]
      exact ⟨fun j h1 h2 => hex j h1 h2 (by omega), List.Perm.refl l⟩
    | k + 1, hif =>
      rw [siftUpF_succ]
      have hPar : Par (k + 1) = (k + 1 - 1) / 2 := rfl
      set p := (k + 1 - 1) / 2 with hp
      have hpk : p < k + 1 := by omega
      have hplen : p < l.length := by omega
      cases hbr : PQEntry.lt (l.getD p default) (l.getD (k + 1) default) with
      | true =>
        simp only [hbr, if_true]
        refine ⟨?_, List.Perm.refl l⟩
        intro j h1 h2
        by_cases hj : j = k + 1
        · subst hj
          rw [hPar]
          exact entryLE_of_lt hbr
        · exact hex j h1 h2 hj
      | false =>
        simp only [hbr, Bool.false_eq_true, if_false]
        have hswap : entryLE (l.getD (k + 1) default) (l.getD p default) := hbr
        have hex' : HeapExceptAt (swapL l p (k + 1) default) p := by
          intro j h1 h2 hjp
          rw [length_swapL] at h2
          by_cases hji : j = k + 1
          · subst hji
            rw [hPar]
            rw [getD_swapL_left l p (k + 1) default hplen hlen,
              getD_swapL_right l p (k + 1) default hlen]
            exact hswap
          · by_cases hPji : Par j = k + 1
            · have hjgt : k + 1 < j := hPji ▸ Par_lt h1
              rw [getD_swapL_other l p (k + 1) j default
                (by omega) (by omega)]
              rw [hPji, getD_swapL_right l p (k + 1) default hlen]
              exact hgr (by omega) j h2 hPji
            · by_cases hPjp : Par j = p
              · rw [getD_swapL_other l p (k + 1) j default hjp hji]
                rw [hPjp, getD_swapL_left l p (k + 1) default hplen hlen]
                exact entryLE_trans hswap (hPjp ▸ hex j h1 h2 hji)
              · rw [getD_swapL_other l p (k + 1) j default hjp hji,
                  getD_swapL_other l p (k + 1) (Par j) default hPjp hPji]
                exact hex j h1 h2 hji
        have hgr' : GrandUpOK (swapL l p (k + 1) default) p := by
          intro hp0 c hc hPc
          rw [length_swapL] at hc
          have hc0 : 0 < c := by
            by_contra hcz
            have hc0' : c = 0 := by omega
            subst hc0'
            unfold Par at hPc
            omega
          have hcp : p < c := hPc ▸ Par_lt hc0
          have hPp : Par p < p := Par_lt hp0
          rw [getD_swapL_other l p (k + 1) (Par p) default
            (by omega) (by omega)]
          by_cases hci : c = k + 1
          · subst hci
            rw [getD_swapL_right l p (k + 1) default hlen]
            exact hex p hp0 hplen (by omega)
          · rw [getD_swapL_other l p (k + 1) c default (by omega) hci]
            exact entryLE_trans (hex p hp0 hplen (by omega))
              (hPc ▸ hex c hc0 hc hci)
        have hrec := ih p (swapL l p (k + 1) default)
          (by omega) (by rw [length_swapL]; omega) hex' hgr'
        exact ⟨hrec.1,
          hrec.2.trans (swapL_perm default l p (k + 1) hplen hlen)⟩

/-- Heap property on every edge whose parent is not the hole i
(sift-down loop invariant). -/
def DownOK {α : Type} [Inhabited α] (l : List (PQEntry α)) (i : Nat) : Prop :=
  ∀ j, 0 < j → j < l.length → Par j ≠ i →
    entryLE (l.getD (Par j) default) (l.getD j default)

/-- The parent of the hole dominates the hole's children (sift-down loop
invariant). -/
def GrandDownOK {α : Type} [Inhabited α] (l : List (PQEntry α)) (i : Nat) :
    Prop :=
  0 < i → ∀ c, c < l.length → Par c = i →
    entryLE (l.getD (Par i) default) (l.getD c default)

theorem siftDownF_succ {α : Type} [Inhabited α] (fuel : Nat)
    (l : List (PQEntry α)) (i : Nat) :
    siftDownF (fuel + 1) l i =
      if 2 * i + 1 ≥ l.length then l
      else
        let child := if 2 * i + 2 < l.length ∧
            PQEntry.lt (l.getD (2 * i + 2) default)
              (l.getD (2 * i + 1) default) = true
          then 2 * i + 2 else 2 * i + 1
        if PQEntry.lt (l.getD i default) (l.getD child default) then l
        else siftDownF fuel (swapL l i child default) child := rfl

theorem siftDownF_spec {α : Type} [Inhabited α] :
    ∀ (fuel : Nat) (l : List (PQEntry α)) (i : Nat), l.length ≤ fuel + i →
      DownOK l i → GrandDownOK l i →
      IsHeap (siftDownF fuel l i) ∧ List.Perm (siftDownF fuel l i) l := by
  intro fuel
  induction fuel with
  | zero =>
    intro l i hfu hdk _
    show IsHeap l ∧ List.Perm l l
    refine ⟨?_, List.Perm.refl l⟩
    intro j h1 h2
    have hPj : Par j < j := Par_lt h1
    exact hdk j h1 h2 (by omega)
  | succ f ih =>
    intro l i hfu hdk hgd
    rw [siftDownF_succ]
    by_cases hleft : 2 * i + 1 ≥ l.length
    · rw [if_pos hleft]
      refine ⟨?_, List.Perm.refl l⟩
      intro j h1 h2
      by_cases hPj : Par j = i
      · rw [Par_eq_iff h1] at hPj
        omega
      · exact hdk j h1 h2 hPj
    · rw [if_neg hleft]
      have hllen : 2 * i + 1 < l.length := by omega
      have hilen : i < l.length := by omega
      set c := if 2 * i + 2 < l.length ∧
          PQEntry.lt (l.getD (2 * i + 2) default)
            (l.getD (2 * i + 1) default) = true
        then 2 * i + 2 else 2 * i + 1 with hcdef
      have hcrange : c = 2 * i + 1 ∨ c = 2 * i + 2 := by
        rw [hcdef]
        by_cases hsel : 2 * i + 2 < l.length ∧
            PQEntry.lt (l.getD (2 * i + 2) default)
              (l.getD (2 * i + 1) default) = true
        · rw [if_pos hsel]; omega
        · rw [if_neg hsel]; omega
      have hclen : c < l.length := by
        rw [hcdef]
        by_cases hsel : 2 * i + 2 < l.length ∧
            PQEntry.lt (l.getD (2 * i + 2) default)
              (l.getD (2 * i + 1) default) = true
        · rw [if_pos hsel]; exact hsel.1
        · rw [if_neg hsel]; omega
      have hPc : Par c = i := by
        rw [Par_eq_iff (by omega)]
        omega
      have hic : i < c := by omega
      have hcsib : ∀ s, 0 < s → s < l.length → Par s = i → s ≠ c →
          entryLE (l.getD c default) (l.getD s default) := by
        intro s hs0 hs hPs hsc
        have hs' : s = 2 * i + 1 ∨ s = 2 * i + 2 := by
          rw [Par_eq_iff hs0] at hPs
          omega
        rw [hcdef] at hsc ⊢
        by_cases hsel : 2 * i + 2 < l.length ∧
            PQEntry.lt (l.getD (2 * i + 2) default)
              (l.getD (2 * i + 1) default) = true
        · rw [if_pos hsel] at hsc ⊢
          have hseq : s = 2 * i + 1 := by omega
          subst hseq
          exact entryLE_of_lt hsel.2
        · rw [if_neg hsel] at hsc ⊢
          have hseq : s = 2 * i + 2 := by omega
          subst hseq
          have hlt : PQEntry.lt (l.getD (2 * i + 2) default)
              (l.getD (2 * i + 1) default) = false := by
            rcases Bool.eq_false_or_eq_true
              (PQEntry.lt (l.getD (2 * i + 2) default)
                (l.getD (2 * i + 1) default)) with hb | hb
            · exact absurd ⟨hs, hb⟩ hsel
            · exact hb
          exact hlt
      cases hbr : PQEntry.lt (l.getD i default) (l.getD c default) with
      | true =>
        simp only [hbr, if_true]
        refine ⟨?_, List.Perm.refl l⟩
        intro j h1 h2
        by_cases hPj : Par j = i
        · by_cases hjc : j = c
          · subst hjc
            rw [hPj]
            exact entryLE_of_lt hbr
          · rw [hPj]
            exact entryLE_trans (entryLE_of_lt hbr) (hcsib j h1 h2 hPj hjc)
        · exact hdk j h1 h2 hPj
      | false =>
        simp only [hbr, Bool.false_eq_true, if_false]
        have hswap : entryLE (l.getD c default) (l.getD i default) := hbr
        have hdk' : DownOK (swapL l i c default) c := by
          intro j h1 h2 hPjc
          rw [length_swapL] at h2
          by_cases hjc : j = c
          · subst hjc
            rw [hPc, getD_swapL_left l i c default hilen hclen,
              getD_swapL_right l i c default hclen]
            exact hswap
          · by_cases hji : j = i
            · rw [hji]
              have h1' : 0 < i := hji ▸ h1
              have hPj : Par i < i := Par_lt h1'
              rw [getD_swapL_left l i c default hilen hclen,
                getD_swapL_other l i c (Par i) default (by omega) (by omega)]
              exact hgd h1' c hclen hPc
            · by_cases hPji : Par j = i
              · rw [hPji, getD_swapL_left l i c default hilen hclen,
                  getD_swapL_other l i c j default hji hjc]
                exact hcsib j h1 h2 hPji hjc
              · rw [getD_swapL_other l i c j default hji hjc,
                  getD_swapL_other l i c (Par j) default hPji hPjc]
                exact hdk j h1 h2 hPji
        have hgd' : GrandDownOK (swapL l i c default) c := by
          intro _ gc hgc hPgc
          rw [length_swapL] at hgc
          have hgc0 : 0 < gc := by
            by_contra hz
            have hz' : gc = 0 := by omega
            subst hz'
            unfold Par at hPgc
            omega
          have hgcc : c < gc := hPgc ▸ Par_lt hgc0
          rw [hPc, getD_swapL_left l i c default hilen hclen,
            getD_swapL_other l i c gc default (by omega) (by omega)]
          have := hdk gc hgc0 hgc (by omega)
          rw [hPgc] at this
          exact this
        have hrec := ih (swapL l i c default) c
          (by rw [length_swapL]; omega) hdk' hgd'
        exact ⟨hrec.1, hrec.2.trans (swapL_perm default l i c hilen hclen)⟩

/-- The root of a heap is no later than every entry. -/
theorem heap_root_min {α : Type} [Inhabited α] (l : List (PQEntry α))
    (h : IsHeap l) :
    ∀ i, i < l.length → entryLE (l.getD 0 default) (l.getD i default) := by
  intro i
  induction i using Nat.strong_induction_on with
  | _ i ih =>
    intro hi
    rcases Nat.eq_zero_or_pos i with h0 | h0
    · subst h0
      exact entryLE_refl _
    · have hPi : Par i < i := Par_lt h0
      exact entryLE_trans (ih (Par i) hPi (by omega)) (h i h0 hi)

/- ============================================================
   Queue-level invariant and operation specifications
   ============================================================ -/

/-- Every queue state the operations can reach: the live array is a heap,
all stored timestamps are at most the counter, and timestamps are
pairwise distinct. -/
def PQWF {α : Type} [Inhabited α] (q : PriorityQueue α) : Prop :=
  IsHeap q.array ∧ (∀ e ∈ q.array, e.timestamp ≤ q.timestamp) ∧
    (q.array.map PQEntry.timestamp).Nodup

theorem PQWF_empty {α : Type} [Inhabited α] : PQWF (@PriorityQueue.empty α) := by
  refine ⟨?_, ?_, ?_⟩ <;> simp [PriorityQueue.empty, IsHeap]

theorem enqueue_array {α : Type} [Inhabited α] (q : PriorityQueue α)
    (v : α) (p : Nat) :
    (q.enqueue v p).array =
        siftUpF q.array.length (q.array ++ [⟨v, p, q.timestamp + 1⟩])
          q.array.length ∧
      (q.enqueue v p).timestamp = q.timestamp + 1 := by
  unfold PriorityQueue.enqueue
  by_cases h : q.count = q.capacity <;>
    simp [h, PriorityQueue.expandCapacity]

theorem enqueue_spec {α : Type} [Inhabited α] (q : PriorityQueue α)
    (v : α) (p : Nat) (h : PQWF q) :
    PQWF (q.enqueue v p) ∧
      List.Perm (q.enqueue v p).array
        (q.array ++ [⟨v, p, q.timestamp + 1⟩]) ∧
      (q.enqueue v p).timestamp = q.timestamp + 1 := by
  obtain ⟨hheap, hts, hnd⟩ := h
  obtain ⟨harr, htime⟩ := enqueue_array q v p
  set entry : PQEntry α := ⟨v, p, q.timestamp + 1⟩ with hent
  set l' : List (PQEntry α) := q.array ++ [entry] with hl'
  have hlen' : l'.length = q.array.length + 1 := by simp [hl']
  have hup := siftUpF_spec q.array.length q.array.length l'
    (Nat.le_refl _) (by omega)
    (by
      intro j h1 h2 hjn
      have hj : j < q.array.length := by omega
      have hPj : Par j < q.array.length := by
        have := Par_lt h1
        omega
      rw [hl', List.getD_append _ _ _ _ hj, List.getD_append _ _ _ _ hPj]
      exact hheap j h1 hj)
    (by
      intro hn0 c hc hPc
      have hc0 : 0 < c := by
        by_contra hz
        have hz' : c = 0 := by omega
        subst hz'
        unfold Par at hPc
        omega
      rw [Par_eq_iff hc0] at hPc
      omega)
  have hperm : List.Perm (q.enqueue v p).array l' := by
    rw [harr]
    exact hup.2
  have hmem : ∀ e ∈ (q.enqueue v p).array, e ∈ l' :=
    fun e he => hperm.subset he
  refine ⟨⟨?_, ?_, ?_⟩, hperm, htime⟩
  · rw [harr]
    exact hup.1
  · intro e he
    rw [htime]
    rcases List.mem_append.mp (hmem e he) with hin | hin
    · exact Nat.le_succ_of_le (hts e hin)
    · rw [List.mem_singleton.mp hin]
  · have h1 : List.Perm ((q.enqueue v p).array.map PQEntry.timestamp)
        (l'.map PQEntry.timestamp) := hperm.map _
    rw [h1.nodup_iff, hl']
    have h2 : List.Perm
        ((q.array ++ [entry]).map PQEntry.timestamp)
        (entry.timestamp :: q.array.map PQEntry.timestamp) := by
      rw [List.map_append]
      simp
    rw [h2.nodup_iff, List.nodup_cons]
    refine ⟨?_, hnd⟩
    intro hb
    rcases List.mem_map.mp hb with ⟨e, he, hteq⟩
    have := hts e he
    rw [hteq] at this
    simp [hent] at this

/-- The array after one successful dequeue: copy the last live entry over
the root, shrink by one, sift down from the root. -/
def popArr {α : Type} [Inhabited α] (l : List (PQEntry α)) :
    List (PQEntry α) :=
  let arr := (l.set 0 (l.getD (l.length - 1) default)).dropLast
  siftDownF arr.length arr 0

theorem dequeueWithPriority_eq {α : Type} [Inhabited α]
    (q : PriorityQueue α) (h : ¬q.count = 0) :
    q.dequeueWithPriority =
      .ok (((q.array.getD 0 default).value,
            (q.array.getD 0 default).priority),
        { q with array := popArr q.array }) := by
  unfold PriorityQueue.dequeueWithPriority popArr
  rw [if_neg h]
  rfl

theorem pop_cons_perm {α : Type} [Inhabited α] (l : List (PQEntry α))
    (hne : l ≠ []) :
    List.Perm
      (l.getD 0 default :: (l.set 0 (l.getD (l.length - 1) default)).dropLast)
      l := by
  match l with
  | r :: rest =>
    rcases List.eq_nil_or_concat rest with hr | ⟨mid, last, hr⟩
    · subst hr
      simp
    · rw [List.concat_eq_append] at hr
      subst hr
      have hlen : (r :: (mid ++ [last])).length - 1 = mid.length + 1 := by
        simp
      rw [hlen]
      have hget : (r :: (mid ++ [last])).getD (mid.length + 1) default = last := by
        rw [List.getD_cons_succ]
        rw [List.getD_eq_getElem _ _ (by simp)]
        simp
      rw [hget, List.getD_cons_zero, List.set_cons_zero]
      have hdrop : (last :: (mid ++ [last])).dropLast = last :: mid := by
        rw [List.dropLast_cons_of_ne_nil (by simp)]
        simp
      rw [hdrop]
      refine List.Perm.cons r ?_
      exact (List.perm_append_singleton last mid).symm

theorem popArr_spec {α : Type} [Inhabited α] (l : List (PQEntry α))
    (hh : IsHeap l) (hne : l ≠ []) :
    IsHeap (popArr l) ∧ List.Perm (l.getD 0 default :: popArr l) l := by
  have hlen0 : 0 < l.length := List.length_pos.mpr hne
  have hpop : popArr l =
      siftDownF ((l.set 0 (l.getD (l.length - 1) default)).dropLast).length
        ((l.set 0 (l.getD (l.length - 1) default)).dropLast) 0 := rfl
  set arr := (l.set 0 (l.getD (l.length - 1) default)).dropLast with harr
  have hlenarr : arr.length = l.length - 1 := by
    rw [harr]; simp
  have hgetarr : ∀ k, 0 < k → k < l.length - 1 →
      arr.getD k default = l.getD k default := by
    intro k hk0 hk
    rw [harr, List.getD_eq_getElem?_getD, List.getElem?_dropLast,
      List.length_set, if_pos (by omega), List.getElem?_set,
      if_neg (by omega), ← List.getD_eq_getElem?_getD]
  have hdk : DownOK arr 0 := by
    intro j h1 h2 hPj
    rw [hlenarr] at h2
    have hPj1 : 0 < Par j := Nat.pos_of_ne_zero hPj
    have hPjlt : Par j < j := Par_lt h1
    rw [hgetarr j h1 h2, hgetarr (Par j) hPj1 (by omega)]
    exact hh j h1 (by omega)
  have hgd : GrandDownOK arr 0 := by
    intro h0
    exact absurd h0 (by omega)
  obtain ⟨hih, hp⟩ := siftDownF_spec arr.length arr 0 (by omega) hdk hgd
  rw [hpop]
  exact ⟨hih, (List.Perm.cons _ hp).trans (pop_cons_perm l hne)⟩

theorem dequeue_ok_spec {α : Type} [Inhabited α] (q : PriorityQueue α)
    (h : PQWF q) (hne : ¬q.count = 0) :
    PQWF { q with array := popArr q.array } ∧
      List.Perm (q.array.getD 0 default :: popArr q.array) q.array := by
  obtain ⟨hheap, hts, hnd⟩ := h
  have hne' : q.array ≠ [] := by
    intro hz
    apply hne
    show q.array.length = 0
    rw [hz]
    rfl
  obtain ⟨hih, hperm⟩ := popArr_spec q.array hheap hne'
  refine ⟨⟨hih, ?_, ?_⟩, hperm⟩
  · intro e he
    exact hts e (hperm.subset (List.mem_cons_of_mem _ he))
  · have h1 : List.Perm
        ((q.array.getD 0 default :: popArr q.array).map PQEntry.timestamp)
        (q.array.map PQEntry.timestamp) := hperm.map _
    have h2 := h1.nodup_iff.mpr hnd
    rw [List.map_cons, List.nodup_cons] at h2
    exact h2.2

/-- Proof-layer view of draining: the popped entries themselves. -/
def drainEntriesF {α : Type} [Inhabited α] :
    Nat → PriorityQueue α → List (PQEntry α)
  | 0, _ => []
  | fuel + 1, q =>
      if q.count = 0 then []
      else q.array.getD 0 default ::
        drainEntriesF fuel { q with array := popArr q.array }

theorem drainF_eq_map {α : Type} [Inhabited α] :
    ∀ (fuel : Nat) (q : PriorityQueue α),
      drainF fuel q =
        (drainEntriesF fuel q).map (fun e => (e.value, e.priority)) := by
  intro fuel
  induction fuel with
  | zero => intro q; rfl
  | succ f ih =>
    intro q
    by_cases h : q.count = 0
    · have hd : q.dequeueWithPriority = Except.error PyErr.indexError := by
        unfold PriorityQueue.dequeueWithPriority
        rw [if_pos h]
      simp [drainF, drainEntriesF, hd, h]
    · have hd := dequeueWithPriority_eq q h
      simp [drainF, drainEntriesF, hd, h, ih]

theorem drainEntriesF_spec {α : Type} [Inhabited α] :
    ∀ (fuel : Nat) (q : PriorityQueue α), PQWF q → q.count ≤ fuel →
      List.Perm (drainEntriesF fuel q) q.array ∧
        List.Sorted entryLE (drainEntriesF fuel q) := by
  intro fuel
  induction fuel with
  | zero =>
    intro q _ hle
    have hz : q.array = [] := List.length_eq_zero.mp (by
      have : q.count ≤ 0 := hle
      exact Nat.le_zero.mp this)
    show List.Perm [] q.array ∧ List.Sorted entryLE []
    rw [hz]
    exact ⟨List.Perm.refl [], List.sorted_nil⟩
  | succ f ih =>
    intro q hwf hle
    by_cases h : q.count = 0
    · have hz : q.array = [] := List.length_eq_zero.mp h
      rw [show drainEntriesF (f + 1) q = [] from by simp [drainEntriesF, h], hz]
      exact ⟨List.Perm.refl [], List.sorted_nil⟩
    · obtain ⟨hwf', hperm⟩ := dequeue_ok_spec q hwf h
      have hlenpop : (popArr q.array).length + 1 = q.array.length := by
        have := hperm.length_eq
        simpa using this
      have hcount : ({ q with array := popArr q.array } :
          PriorityQueue α).count ≤ f := by
        show (popArr q.array).length ≤ f
        have hc : q.array.length ≤ f + 1 := hle
        omega
      obtain ⟨ihp, ihs⟩ := ih { q with array := popArr q.array } hwf' hcount
      rw [show drainEntriesF (f + 1) q = q.array.getD 0 default ::
          drainEntriesF f { q with array := popArr q.array } from by
        simp [drainEntriesF, h]]
      constructor
      · exact (List.Perm.cons _ ihp).trans hperm
      · rw [List.sorted_cons]
        refine ⟨?_, ihs⟩
        intro b hb
        have hbmem : b ∈ q.array :=
          hperm.subset (List.mem_cons_of_mem _ (ihp.subset hb))
        obtain ⟨n, hn, hbn⟩ := List.getElem_of_mem hbmem
        have hmin := heap_root_min q.array hwf.1 n hn
        rw [List.getD_eq_getElem q.array default hn, hbn] at hmin
        exact hmin

theorem foldl_enqueue_spec {α : Type} [Inhabited α] :
    ∀ (xs : List (α × Nat)) (q : PriorityQueue α), PQWF q →
      PQWF (List.foldl (fun q vp => q.enqueue vp.1 vp.2) q xs) ∧
        List.Perm (List.foldl (fun q vp => q.enqueue vp.1 vp.2) q xs).array
          (q.array ++ entriesFrom q.timestamp xs) := by
  intro xs
  induction xs with
  | nil =>
    intro q h
    exact ⟨h, by simp [entriesFrom]⟩
  | cons vp rest ih =>
    intro q h
    obtain ⟨hwf1, hperm1, htime1⟩ := enqueue_spec q vp.1 vp.2 h
    obtain ⟨hwf2, hperm2⟩ := ih (q.enqueue vp.1 vp.2) hwf1
    rw [htime1] at hperm2
    rw [List.foldl_cons]
    refine ⟨hwf2, ?_⟩
    refine hperm2.trans ?_
    have hcons : entriesFrom q.timestamp (vp :: rest) =
        ⟨vp.1, vp.2, q.timestamp + 1⟩ :: entriesFrom (q.timestamp + 1) rest :=
      rfl
    rw [hcons]
    have happ := hperm1.append_right (entriesFrom (q.timestamp + 1) rest)
    refine happ.trans ?_
    rw [List.append_assoc]
    exact List.Perm.refl _

theorem entriesFrom_ts_mem {α : Type} :
    ∀ (xs : List (α × Nat)) (c t : Nat),
      t ∈ (entriesFrom c xs).map PQEntry.timestamp →
      c < t ∧ t ≤ c + xs.length := by
  intro xs
  induction xs with
  | nil =>
    intro c t ht
    simp [entriesFrom] at ht
  | cons vp rest ih =>
    intro c t ht
    rw [show entriesFrom c (vp :: rest) =
        ⟨vp.1, vp.2, c + 1⟩ :: entriesFrom (c + 1) rest from rfl,
      List.map_cons, List.mem_cons] at ht
    rcases ht with hh | hh
    · rw [hh]
      simp
    · have := ih (c + 1) t hh
      simp only [List.length_cons]
      omega

theorem entriesFrom_ts_nodup {α : Type} :
    ∀ (xs : List (α × Nat)) (c : Nat),
      ((entriesFrom c xs).map PQEntry.timestamp).Nodup := by
  intro xs
  induction xs with
  | nil =>
    intro c
    simp [entriesFrom]
  | cons vp rest ih =>
    intro c
    rw [show entriesFrom c (vp :: rest) =
        ⟨vp.1, vp.2, c + 1⟩ :: entriesFrom (c + 1) rest from rfl,
      List.map_cons, List.nodup_cons]
    refine ⟨?_, ih (c + 1)⟩
    intro hmem
    have := entriesFrom_ts_mem rest (c + 1) (c + 1) hmem
    omega

/-- A sorted permutation of a sorted list with pairwise distinct
timestamps is that list: sortedness pins the arrangement down. -/
theorem sorted_perm_eq_of_ts_nodup {α : Type} :
    ∀ (l₁ l₂ : List (PQEntry α)), List.Perm l₁ l₂ →
      List.Sorted entryLE l₁ → List.Sorted entryLE l₂ →
      (l₂.map PQEntry.timestamp).Nodup → l₁ = l₂ := by
  intro l₁
  induction l₁ with
  | nil =>
    intro l₂ hp _ _ _
    exact (hp.symm.eq_nil).symm
  | cons a t₁ ih =>
    intro l₂ hp hs₁ hs₂ hnd
    cases l₂ with
    | nil => exact absurd hp.eq_nil (by simp)
    | cons b t₂ =>
      by_cases hab : a = b
      · subst hab
        have ht := hp.cons_inv
        rw [List.sorted_cons] at hs₁ hs₂
        rw [List.map_cons, List.nodup_cons] at hnd
        rw [ih t₂ ht hs₁.2 hs₂.2 hnd.2]
      · exfalso
        have ha2 : a ∈ t₂ := by
          have hm := hp.subset (List.mem_cons_self a t₁)
          rcases List.mem_cons.mp hm with hh | hh
          · exact absurd hh hab
          · exact hh
        have hb1 : b ∈ t₁ := by
          have hm := hp.symm.subset (List.mem_cons_self b t₂)
          rcases List.mem_cons.mp hm with hh | hh
          · exact absurd hh.symm hab
          · exact hh
        have h1 : entryLE a b := (List.sorted_cons.mp hs₁).1 b hb1
        have h2 : entryLE b a := (List.sorted_cons.mp hs₂).1 a ha2
        have hts : a.timestamp = b.timestamp :=
          (entryLE_antisymm_keys h1 h2).2
        rw [List.map_cons, List.nodup_cons] at hnd
        apply hnd.1
        rw [← hts]
        exact List.mem_map_of_mem _ ha2

/-- C1: for every sequence of schedule operations followed by pops, the
scheduler dispenses entries in non-decreasing time order with FIFO
tie-break by the monotonically increasing insertion counter — draining
the queue yields exactly the input stably sorted by time; in particular
scheduling A, B, C at times 5, 3, 5 and popping three times yields
B, A, C. -/
theorem scheduler_dispatch_order {α : Type} [Inhabited α]
    (xs : List (α × Nat)) :
    drain (scheduleAll xs) = stableSortByTime xs ∧
      drain (scheduleAll [("A", 5), ("B", 3), ("C", 5)]) =
        [("B", 3), ("A", 5), ("C", 5)] := by
  constructor
  · obtain ⟨hwf, hperm⟩ :=
      foldl_enqueue_spec xs (@PriorityQueue.empty α) PQWF_empty
    have hperm' : List.Perm (scheduleAll xs).array (entriesFrom 0 xs) := by
      have hemp : (@PriorityQueue.empty α).array ++
          entriesFrom (@PriorityQueue.empty α).timestamp xs =
          entriesFrom 0 xs := by
        show [] ++ entriesFrom 0 xs = entriesFrom 0 xs
        simp
      exact hemp ▸ hperm
    obtain ⟨hdp, hds⟩ := drainEntriesF_spec (scheduleAll xs).count
      (scheduleAll xs) hwf (Nat.le_refl _)
    have hkey : drainEntriesF (scheduleAll xs).count (scheduleAll xs) =
        List.insertionSort entryLE (entriesFrom 0 xs) := by
      refine sorted_perm_eq_of_ts_nodup _ _ ?_ hds
        (List.sorted_insertionSort entryLE _) ?_
      · exact (hdp.trans hperm').trans
          (List.perm_insertionSort entryLE _).symm
      · have hmap : List.Perm
            ((List.insertionSort entryLE (entriesFrom 0 xs)).map
              PQEntry.timestamp)
            ((entriesFrom 0 xs).map PQEntry.timestamp) :=
          (List.perm_insertionSort entryLE _).map _
        exact hmap.nodup_iff.mpr (entriesFrom_ts_nodup xs 0)
    show drainF (scheduleAll xs).count (scheduleAll xs) = stableSortByTime xs
    rw [drainF_eq_map, hkey]
    rfl
  · decide

/-- C4: pop and peek fail with the empty-queue error exactly on an empty
scheduler, and on a reachable non-empty queue they return the entry with
the smallest (time, insertion-sequence) key — but the source's `dequeue`
wrapper raises NameError on every call, non-empty queues included,
because its body calls the unbound module-level name
`dequeueWithPriority` instead of `self.dequeueWithPriority`. -/
theorem pq_pop_contract :
    (∀ (q : PriorityQueue String), q.dequeue = Except.error PyErr.nameError) ∧
    (∀ (q : PriorityQueue String),
      (q.dequeueWithPriority = Except.error PyErr.indexError ↔ q.count = 0) ∧
      (q.peek = Except.error PyErr.indexError ↔ q.count = 0)) ∧
    (∀ (q : PriorityQueue String), PQWF q → ¬q.count = 0 →
      q.peek = Except.ok (q.array.getD 0 default).value ∧
      q.dequeueWithPriority = Except.ok
        (((q.array.getD 0 default).value, (q.array.getD 0 default).priority),
          { q with array := popArr q.array }) ∧
      ∀ e ∈ q.array, entryLE (q.array.getD 0 default) e) := by
  refine ⟨fun _ => rfl, ?_, ?_⟩
  · intro q
    constructor
    · by_cases h : q.count = 0
      · unfold PriorityQueue.dequeueWithPriority
        rw [if_pos h]
        simp [h]
      · rw [dequeueWithPriority_eq q h]
        simp [h]
    · by_cases h : q.count = 0
      · unfold PriorityQueue.peek
        rw [if_pos h]
        simp [h]
      · unfold PriorityQueue.peek
        rw [if_neg h]
        simp [h]
  · intro q hwf hne
    refine ⟨?_, dequeueWithPriority_eq q hne, ?_⟩
    · unfold PriorityQueue.peek
      rw [if_neg hne]
    · intro e he
      obtain ⟨n, hn, hbn⟩ := List.getElem_of_mem he
      have hmin := heap_root_min q.array hwf.1 n hn
      rw [List.getD_eq_getElem q.array default hn, hbn] at hmin
      exact hmin

/-- Witness for `pq_pop_contract` at concrete queues: on the queue holding
the single entry ("A", 5), dequeue still raises NameError while peek
returns "A"; on the empty queue peek raises the empty-queue IndexError. -/
theorem pq_pop_contract_witness :
    (PriorityQueue.enqueue (@PriorityQueue.empty String) "A" 5).dequeue
        = Except.error PyErr.nameError ∧
      (@PriorityQueue.empty String).peek = Except.error PyErr.indexError ∧
      (PriorityQueue.enqueue (@PriorityQueue.empty String) "A" 5).peek
        = Except.ok "A" := by
  have harr : (PriorityQueue.enqueue (@PriorityQueue.empty String) "A" 5).array
      = [⟨"A", 5, 1⟩] := rfl
  have hwf : PQWF (PriorityQueue.enqueue (@PriorityQueue.empty String) "A" 5) := by
    refine ⟨?_, ?_, ?_⟩
    · intro i h1 h2
      rw [harr] at h2
      simp at h2
      omega
    · intro e he
      rw [harr] at he
      rw [List.mem_singleton.mp he]
      decide
    · rw [harr]
      simp
  refine ⟨pq_pop_contract.1 _, ?_, ?_⟩
  · exact ((pq_pop_contract.2.1 (@PriorityQueue.empty String)).2).mpr rfl
  · have h := (pq_pop_contract.2.2 _ hwf (by decide)).1
    rw [h]
    rfl

/- ============================================================
   src/packet.py : TCPPacket and the byte-level helpers
   ============================================================ -/

/-- appendByte (lines 208-210): append b & 0xFF to the bytearray. -/
def appendByte (array : List Nat) (b : Nat) : List Nat :=
  array ++ [b % 256]

/-- appendHalfWord (lines 212-215): append hw >> 8 then hw. -/
def appendHalfWord (array : List Nat) (hw : Nat) : List Nat :=
  appendByte (appendByte array (hw >>> 8)) hw

/-- appendWord (lines 217-222). -/
def appendWord (array : List Nat) (w : Nat) : List Nat :=
  appendByte (appendByte (appendByte (appendByte array (w >>> 24))
    (w >>> 16)) (w >>> 8)) w

/-- TCP_HEADER_WORDS (line 92). -/
def TCP_HEADER_WORDS : Nat := 5

/-- src/packet.py, TCPPacket (lines 68-123): ports, cursors, the six
flags, window/checksum/urgent, options and payload, plus the derived
header length in 32-bit words.  Every integer this program ever stores
in these fields is a non-negative Python int, embedded as Nat. -/
structure TCPPacket where
  src : Nat
  dst : Nat
  seq : Nat
  ack : Nat
  URG : Bool
  ACK : Bool
  PSH : Bool
  RST : Bool
  SYN : Bool
  FIN : Bool
  window : Nat
  checksum : Nat
  urgent : Nat
  options : List Nat
  data : List Nat
  hlen : Nat
deriving DecidableEq, Inhabited

/-- TCPPacket.__init__ (lines 96-123): stores the keyword arguments and
sets hlen = TCP_HEADER_WORDS + (len(options) + 3) // 4. -/
def TCPPacket.make (src dst seq ack : Nat) (URG ACK PSH RST SYN FIN : Bool)
    (window checksum urgent : Nat) (options data : List Nat) : TCPPacket :=
  { src := src, dst := dst, seq := seq, ack := ack,
    URG := URG, ACK := ACK, PSH := PSH, RST := RST, SYN := SYN, FIN := FIN,
    window := window, checksum := checksum, urgent := urgent,
    options := options, data := data,
    hlen := TCP_HEADER_WORDS + (options.length + 3) / 4 }

/-- TCPPacket.toBytes (lines 182-204): 16-bit ports, 32-bit seq and ack,
the packed hlen+flags halfword, window, checksum, urgent, then the
options padded with zero bytes to the next multiple of four, then the
payload. -/
def TCPPacket.toBytes (p : TCPPacket) : List Nat :=
  let array : List Nat := []
  let array := appendHalfWord array p.src
  let array := appendHalfWord array p.dst
  let array := appendWord array p.seq
  let array := appendWord array p.ack
  let hw := p.hlen <<< 12
  let hw := if p.URG then hw ||| 0x20 else hw
  let hw := if p.ACK then hw ||| 0x10 else hw
  let hw := if p.PSH then hw ||| 0x08 else hw
  let hw := if p.RST then hw ||| 0x04 else hw
  let hw := if p.SYN then hw ||| 0x02 else hw
  let hw := if p.FIN then hw ||| 0x01 else hw
  let array := appendHalfWord array hw
  let array := appendHalfWord array p.window
  let array := appendHalfWord array p.checksum
  let array := appendHalfWord array p.urgent
  let array := array ++ p.options
  let array := if p.options.length % 4 ≠ 0
    then array ++ List.replicate (4 - p.options.length % 4) 0
    else array
  array ++ p.data

/-- C10: toBytes emits exactly 4 * hlen + len(data) bytes — a 20-byte
fixed header, the options zero-padded up to the next multiple of 4, then
the payload — where the constructor sets
hlen = TCP_HEADER_WORDS + ceil(len(options) / 4) = 5 + (len(options)+3)/4. -/
theorem tcp_toBytes_length (src dst seq ack : Nat)
    (URG ACK PSH RST SYN FIN : Bool) (window checksum urgent : Nat)
    (options data : List Nat) :
    (TCPPacket.make src dst seq ack URG ACK PSH RST SYN FIN window checksum
        urgent options data).toBytes.length =
      4 * (TCPPacket.make src dst seq ack URG ACK PSH RST SYN FIN window
        checksum urgent options data).hlen + data.length ∧
    (TCPPacket.make src dst seq ack URG ACK PSH RST SYN FIN window checksum
        urgent options data).hlen = 5 + (options.length + 3) / 4 := by
  constructor
  · show (TCPPacket.toBytes _).length = _
    unfold TCPPacket.toBytes appendHalfWord appendWord appendByte
    by_cases h : options.length % 4 = 0 <;>
      simp [TCPPacket.make, TCP_HEADER_WORDS, h] <;> omega
  · rfl

/-- src/packet.py, checksum16 (lines 224-239).  The loop header evaluates
`length(data)`; no name `length` is defined in the module (the Python
builtin is `len`), so every call raises NameError before a byte is read.
Were the name defined, the routine would still be defective: the
`i += 2` in the body is overwritten by the range iterator so i steps by
one, `data[i+1]` is read past the end on the final iteration, and the
`return` sits inside the loop, cutting the sum off after the first
halfword. -/
def checksum16 (_ : List Nat) : Except PyErr Nat :=
  Except.error PyErr.nameError

/-- The bytes of `data` as consecutive big-endian 16-bit halfwords
(section 6 of the specification; an odd trailing byte would occupy the
high half, though the claim only concerns even-length inputs). -/
def halfWords16 : List Nat → List Nat
  | [] => []
  | [b1] => [(b1 % 256) * 256]
  | b1 :: b2 :: rest => ((b1 % 256) * 256 + b2 % 256) :: halfWords16 rest

/-- The checksum the specification describes, modelled from its words:
sum the big-endian halfwords, folding any carry out of bit 15 back into
the running 16-bit sum (end-around carry).  Spec-side definition for
comparison with the defective source routine. -/
def checksum16Spec (data : List Nat) : Nat :=
  (halfWords16 data).foldl
    (fun tally w =>
      if tally + w ≥ 2 ^ 16 then (tally + w) % 2 ^ 16 + 1 else tally + w) 0

/-- C9: the source checksum16 is not the specified function on any
input — it raises NameError (undefined name `length`) for every byte
sequence, even-length ones included, and never performs the end-around
carry sum; on the bytes 12 34 FE FF the specified algorithm yields
0x1134 (one end-around carry), while the source raises. -/
theorem checksum16_raises_nameError :
    (∀ (data : List Nat), checksum16 data = Except.error PyErr.nameError) ∧
      checksum16Spec [0x12, 0x34, 0xFE, 0xFF] = 0x1134 ∧
      checksum16Spec [] = 0 :=
  ⟨fun _ => rfl, by decide, rfl⟩

/- ============================================================
   src/TCPSimulator.py : constants, events and the two endpoints
   ============================================================ -/

/-- Constants, lines 32-36. -/
def MAX_PACKET_DATA : Nat := 4

def TRANSMISSION_DELAY : Nat := 5

/-- LOST_PACKET_PROBABILITY = 0.25 (line 34); the float is exactly 1/4. -/
def LOST_PACKET_PROBABILITY : ℚ := 1 / 4

def ROUND_TRIP_TIME : Nat := 2 * TRANSMISSION_DELAY

def TIMEOUT : Nat := 2 * ROUND_TRIP_TIME

/-- The two protocol endpoints; events reference one of them (the mutual
client.server / server.client references set on lines 50-51). -/
inductive Handler where
  | client
  | server
deriving DecidableEq, Inhabited

/-- The closed set of event classes placed on the queue:
RequestMessageEvent (lines 179-195), ReceivePacketEvent (lines 200-219)
and TimeoutEvent (lines 160-175), each holding its constructor
arguments. -/
inductive TCPEvent where
  | requestMessageEvent (clientRef : Handler)
  | receivePacketEvent (handler : Handler) (packet : TCPPacket)
  | timeoutEvent (handler : Handler) (packet : TCPPacket)
deriving DecidableEq, Inhabited

/-- The simulator's event queue (line 47): a PriorityQueue whose priority
is simulated time. -/
abbrev EventQueue := PriorityQueue TCPEvent

/-- Python's random.random() as an injectable stream of uniform draws
from [0, 1): `draws` lists the successive outcomes, `next` the index of
the first draw not yet consumed. -/
structure RandomSource where
  draws : Nat → ℚ
  next : Nat

/-- One call of random.random(). -/
def randomRandom (r : RandomSource) : ℚ × RandomSource :=
  (r.draws r.next, { r with next := r.next + 1 })

/-- keepPacketBool (lines 221-225): False when the draw falls below
LOST_PACKET_PROBABILITY, True otherwise. -/
def keepPacketBool (r : RandomSource) : Bool × RandomSource :=
  let (x, r') := randomRandom r
  (if LOST_PACKET_PROBABILITY > x then false else true, r')

/-- TCPClient state: the awaitingAck dict created by __init__ (lines
68-70) as an association list, plus msgBytes/seq/ack, which
requestMessage assigns (lines 77-79) before any send happens. -/
structure TCPClient where
  awaitingAck : List (Nat × TCPPacket)
  msgBytes : List Nat
  seq : Nat
  ack : Nat
deriving DecidableEq, Inhabited

/-- TCPClient.__init__ (lines 68-70): only awaitingAck is initialised
(empty); the message fields hold placeholder values until
requestMessage assigns them. -/
def TCPClient.init : TCPClient :=
  { awaitingAck := [], msgBytes := [], seq := 0, ack := 0 }

/-- Python dict assignment d[key] = v on an int-keyed dict. -/
def dictSet (d : List (Nat × TCPPacket)) (k : Nat) (v : TCPPacket) :
    List (Nat × TCPPacket) :=
  (k, v) :: d.filter (fun kv => kv.1 != k)

/-- TCPServer state: reassembly buffer and cursors; __init__ (lines
118-119) runs resetForNextMessage, and self.seq is first assigned inside
receivePacket (line 128). -/
structure TCPServer where
  msgBytes : List Nat
  ack : Nat
  seq : Nat
deriving DecidableEq, Inhabited

/-- TCPServer.resetForNextMessage (lines 138-141). -/
def TCPServer.resetForNextMessage (s : TCPServer) : TCPServer :=
  { s with msgBytes := [], ack := 0 }

/-- TCPServer.__init__ (lines 118-119). -/
def TCPServer.init : TCPServer :=
  TCPServer.resetForNextMessage { msgBytes := [], ack := 0, seq := 0 }

/-- TCPServer.queueTimeoutMessage (lines 143-145).  The body builds
`TimeoutEvent(packet)` with one argument, but TimeoutEvent.__init__
(line 164) requires (handler, packet): Python raises TypeError before
anything is enqueued.  Had construction succeeded, the enqueue on line
145 would use the constant TIMEOUT as the time, not t + TIMEOUT. -/
def TCPServer.queueTimeoutMessage (_ : TCPServer) (_ : TCPPacket)
    (_ : EventQueue) (_ : Nat) : Except PyErr EventQueue :=
  Except.error PyErr.typeError

/-- The call `self.queueTimeoutMessage(p, eventQueue, t)` on line 94 of
sendNextPacket: TCPClient defines no method of that name (only TCPServer
does), so the attribute lookup on the client raises AttributeError. -/
def TCPClient.queueTimeoutMessage (_ : TCPClient) (_ : TCPPacket)
    (_ : EventQueue) (_ : Nat) : Except PyErr EventQueue :=
  Except.error PyErr.attributeError

/-- TimeoutEvent (lines 160-168): handler and packet, as stored by its
__init__. -/
structure TimeoutEvent where
  handler : Handler
  packet : TCPPacket
deriving DecidableEq

/-- TimeoutEvent.dispatch (lines 169-175).  Its first expression reads
`self.awaitingAck`, an attribute never assigned on TimeoutEvent (its
__init__ stores only handler and packet; awaitingAck lives on
TCPClient), so every dispatch — whether the referenced transmission is
acknowledged or not — raises AttributeError: it neither no-ops silently
nor retransmits, and it never enqueues anything.  The rest of the body
is equally unrunnable: it reads self.checksum, calls
handler.ReceivePacket where the classes define receivePacket, and
passes the unbound local name `packet`. -/
def TimeoutEvent.dispatch (_ : TimeoutEvent) (_ : TCPClient)
    (_ : TCPServer) (_ : EventQueue) (_ : Nat) :
    Except PyErr (TCPClient × TCPServer × EventQueue) :=
  Except.error PyErr.attributeError

/-- TCPClient.sendNextPacket (lines 83-96).  The chunk [seq, seq+nBytes)
is carved out of the message, the packet is built with ACK set and FIN
on the final chunk; line 90 then evaluates `checksum16(p.toBytes())` to
key awaitingAck, and that call raises NameError inside checksum16, so
the whole method aborts before the registry, the link, the timer call or
the next-message request are touched. -/
def TCPClient.sendNextPacket (c : TCPClient) (q : EventQueue) (t : Nat)
    (r : RandomSource) :
    Except PyErr (TCPClient × EventQueue × RandomSource) :=
  let nBytes := min MAX_PACKET_DATA (c.msgBytes.length - c.seq)
  let data := (c.msgBytes.drop c.seq).take nBytes
  let p := TCPPacket.make 0 0 c.seq c.ack false true false false false
    false 0 0 0 [] data
  let p := if c.seq + nBytes = c.msgBytes.length
    then { p with FIN := true } else p
  do
    let key ← checksum16 p.toBytes
    let c := { c with awaitingAck := dictSet c.awaitingAck key p }
    let (keep, r) := keepPacketBool r
    let q := if keep
      then q.enqueue (TCPEvent.receivePacketEvent Handler.server p)
        (t + TRANSMISSION_DELAY)
      else q
    let q ← c.queueTimeoutMessage p q t
    let q := if p.FIN
      then q.enqueue (TCPEvent.requestMessageEvent Handler.client)
        (t + TIMEOUT)
      else q
    return (c, q, r)

/-- TCPClient.queueRequestMessage (lines 105-108). -/
def TCPClient.queueRequestMessage (_ : TCPClient) (q : EventQueue)
    (t : Nat) : EventQueue :=
  q.enqueue (TCPEvent.requestMessageEvent Handler.client) t

/-- TCPClient.receivePacket (lines 98-103): move the cursors to the
acknowledgment and send the next chunk if bytes remain. -/
def TCPClient.receivePacket (c : TCPClient) (p : TCPPacket)
    (q : EventQueue) (t : Nat) (r : RandomSource) :
    Except PyErr (TCPClient × EventQueue × RandomSource) :=
  let c := { c with seq := p.ack, ack := p.seq + 1 }
  if c.seq < c.msgBytes.length then c.sendNextPacket q t r
  else return (c, q, r)

/-- TCPServer.receivePacket (lines 121-136).  Lines 127-129 extend the
reassembly buffer and move the cursors; line 130 then calls checksum16
on the received bytes to fill the reply's checksum field, and that call
raises NameError — no reply is ever constructed or enqueued and the FIN
branch is never reached.  (The complement `~checksum16(...)`, were it
reached, is written here as its truncation to the 16-bit wire field.) -/
def TCPServer.receivePacket (s : TCPServer) (p : TCPPacket)
    (q : EventQueue) (t : Nat) : Except PyErr (TCPServer × EventQueue) :=
  let s := { s with msgBytes := s.msgBytes ++ p.data }
  let s := { s with seq := p.ack }
  let s := { s with ack := p.seq + p.data.length }
  do
    let ck ← checksum16 p.toBytes
    let reply := TCPPacket.make 0 0 s.seq s.ack false true false false
      false false 0 (65535 - ck % 65536) 0 [] []
    let reply := if p.FIN then { reply with FIN := true } else reply
    let s := if p.FIN then s.resetForNextMessage else s
    let q := q.enqueue (TCPEvent.receivePacketEvent Handler.client reply)
      (t + TRANSMISSION_DELAY)
    return (s, q)

/-- The network-link delivery attempt: lines 91-93 of sendNextPacket
together with keepPacketBool (lines 221-225), the fragment §4.3 of the
specification names attemptDeliver.  One Bernoulli outcome is drawn; on
keep, one ReceivePacket event for the destination handler goes on the
queue at originTime + TRANSMISSION_DELAY; on drop the queue is returned
unchanged.  The fragment is total — a drop is not an error. -/
def attemptDeliver (dest : Handler) (p : TCPPacket) (q : EventQueue)
    (t : Nat) (r : RandomSource) : EventQueue × RandomSource :=
  let (keep, r) := keepPacketBool r
  if keep
  then (q.enqueue (TCPEvent.receivePacketEvent dest p)
    (t + TRANSMISSION_DELAY), r)
  else (q, r)

theorem length_siftUpF {α : Type} [Inhabited α] :
    ∀ (fuel : Nat) (l : List (PQEntry α)) (i : Nat),
      (siftUpF fuel l i).length = l.length := by
  intro fuel
  induction fuel with
  | zero =>
    intro l i
    cases i <;> rfl
  | succ f ih =>
    intro l i
    cases i with
    | zero => rfl
    | succ k =>
      rw [siftUpF_succ]
      by_cases h : PQEntry.lt (l.getD ((k + 1 - 1) / 2) default)
          (l.getD (k + 1) default) = true
      · rw [if_pos h]
      · rw [if_neg h, ih, length_swapL]

theorem enqueue_count {α : Type} [Inhabited α] (q : PriorityQueue α)
    (v : α) (p : Nat) : (q.enqueue v p).count = q.count + 1 := by
  show (q.enqueue v p).array.length = q.array.length + 1
  rw [(enqueue_array q v p).1, length_siftUpF]
  simp

/-- C2: firing a Timeout for an already-acknowledged transmission is not
a silent no-op in the source — TimeoutEvent.dispatch raises
AttributeError on every state, acknowledged ones included, because it
reads self.awaitingAck, which TimeoutEvent instances never carry. -/
theorem stale_timeout_not_silent (ev : TimeoutEvent) (c : TCPClient)
    (s : TCPServer) (q : EventQueue) (t : Nat) :
    ev.dispatch c s q t = Except.error PyErr.attributeError := rfl

/-- C3: the live-timeout retransmission path cannot run: every dispatch
of a TimeoutEvent aborts before any segment reaches the link (its
result is never ok), and both routes to scheduling the replacement
Timeout fail — the server's queueTimeoutMessage raises TypeError from
the one-argument TimeoutEvent construction, and the client call site
names a method TCPClient does not define. -/
theorem live_timeout_never_retransmits :
    (∀ (ev : TimeoutEvent) (c : TCPClient) (s : TCPServer)
        (q : EventQueue) (t : Nat), (ev.dispatch c s q t).isOk = false) ∧
      (∀ (s : TCPServer) (p : TCPPacket) (q : EventQueue) (t : Nat),
        TCPServer.queueTimeoutMessage s p q t =
          Except.error PyErr.typeError) ∧
      (∀ (c : TCPClient) (p : TCPPacket) (q : EventQueue) (t : Nat),
        TCPClient.queueTimeoutMessage c p q t =
          Except.error PyErr.attributeError) :=
  ⟨fun _ _ _ _ _ => rfl, fun _ _ _ _ => rfl, fun _ _ _ _ => rfl⟩

/-- C5: no pending transmission is ever registered under its sequence
number: __init__ leaves awaitingAck empty, and the only write to it
(line 90) keys by checksum16 of the packet bytes — an expression whose
evaluation raises NameError, aborting sendNextPacket on every state, so
the registry of every reachable sender state remains the empty dict. -/
theorem awaitingAck_never_keyed_by_seq :
    TCPClient.init.awaitingAck = [] ∧
      (∀ (c : TCPClient) (q : EventQueue) (t : Nat) (r : RandomSource),
        c.sendNextPacket q t r = Except.error PyErr.nameError) :=
  ⟨rfl, fun _ _ _ _ => rfl⟩

/-- C6: no Timeout event is ever scheduled at currentTime + RTO:
sendNextPacket aborts with NameError before its timer call, the timer
call names a method TCPClient lacks (AttributeError), and the server
method that does exist mis-constructs TimeoutEvent (TypeError) — and its
enqueue would use the constant TIMEOUT, not t + TIMEOUT, anyway. -/
theorem no_timeout_scheduled_at_rto :
    (∀ (c : TCPClient) (q : EventQueue) (t : Nat) (r : RandomSource),
      (c.sendNextPacket q t r).isOk = false) ∧
      (∀ (s : TCPServer) (p : TCPPacket) (q : EventQueue) (t : Nat),
        (TCPServer.queueTimeoutMessage s p q t).isOk = false) :=
  ⟨fun _ _ _ _ => rfl, fun _ _ _ _ => rfl⟩

/-- C7: a delivery attempt consumes exactly one Bernoulli draw from the
injectable random source; a draw of at least LOST_PACKET_PROBABILITY
(an event of probability 1 − p for a uniform draw on [0, 1)) keeps the
packet and schedules exactly one ReceivePacket event for the destination
handler at originTime + TRANSMISSION_DELAY, and a smaller draw
(probability p) drops it, scheduling nothing; no outcome raises an
error — attemptDeliver always returns a queue. -/
theorem attemptDeliver_one_bernoulli_draw (dest : Handler) (p : TCPPacket)
    (q : EventQueue) (t : Nat) (r : RandomSource) :
    (attemptDeliver dest p q t r).2.next = r.next + 1 ∧
      (attemptDeliver dest p q t r).2.draws = r.draws ∧
      (attemptDeliver dest p q t r).1 =
        (if LOST_PACKET_PROBABILITY > r.draws r.next then q
          else q.enqueue (TCPEvent.receivePacketEvent dest p)
            (t + TRANSMISSION_DELAY)) ∧
      (attemptDeliver dest p q t r).1.count =
        q.count +
          (if LOST_PACKET_PROBABILITY > r.draws r.next then 0 else 1) := by
  unfold attemptDeliver keepPacketBool randomRandom
  by_cases h : LOST_PACKET_PROBABILITY > r.draws r.next
  · simp [h]
  · simp [h, enqueue_count]

/-- Modelled from the spec (§4.5 together with §9b): TCPServer's
receivePacket with its one missing collaborator — the defective checksum
routine — replaced by the corrected algorithm checksum16Spec; every
other step follows the source line for line.  The third component is the
surfaced (printed) completed message: present exactly when the segment
carries FIN. -/
def TCPServer.receivePacketFixed (s : TCPServer) (p : TCPPacket)
    (q : EventQueue) (t : Nat) :
    TCPServer × EventQueue × Option (List Nat) :=
  let s := { s with msgBytes := s.msgBytes ++ p.data }
  let s := { s with seq := p.ack }
  let s := { s with ack := p.seq + p.data.length }
  let ck := checksum16Spec p.toBytes
  let reply := TCPPacket.make 0 0 s.seq s.ack false true false false
    false false 0 (65535 - ck % 65536) 0 [] []
  let reply := if p.FIN then { reply with FIN := true } else reply
  let surfaced := if p.FIN then some s.msgBytes else none
  let s' := if p.FIN then s.resetForNextMessage else s
  (s', q.enqueue (TCPEvent.receivePacketEvent Handler.client reply)
    (t + TRANSMISSION_DELAY), surfaced)

/-- C8: the source receiver never sends the claimed reply — even for an
in-order segment, receivePacket raises NameError while computing the
reply's checksum field (line 130), so no ACK, no FIN echo, no surfaced
message and no reset occur.  With the corrected checksum collaborator
(the spec's stated intent) the same code does exactly what the claim
says: payload appended, expected-next advanced by its length, one reply
enqueued with ACK set and ack equal to the new cursor, FIN echoed, and
on FIN the completed buffer surfaced and the reassembly state reset. -/
theorem receiver_inorder_ack (s : TCPServer) (p : TCPPacket)
    (q : EventQueue) (t : Nat) (hin : p.seq = s.ack) :
    TCPServer.receivePacket s p q t = Except.error PyErr.nameError ∧
      ∃ reply,
        (TCPServer.receivePacketFixed s p q t).2.1 =
          q.enqueue (TCPEvent.receivePacketEvent Handler.client reply)
            (t + TRANSMISSION_DELAY) ∧
        reply.ACK = true ∧
        reply.ack = s.ack + p.data.length ∧
        reply.FIN = p.FIN ∧
        (p.FIN = false →
          (TCPServer.receivePacketFixed s p q t).1.msgBytes =
              s.msgBytes ++ p.data ∧
            (TCPServer.receivePacketFixed s p q t).1.ack =
              s.ack + p.data.length ∧
            (TCPServer.receivePacketFixed s p q t).2.2 = none) ∧
        (p.FIN = true →
          (TCPServer.receivePacketFixed s p q t).1.msgBytes = [] ∧
            (TCPServer.receivePacketFixed s p q t).1.ack = 0 ∧
            (TCPServer.receivePacketFixed s p q t).2.2 =
              some (s.msgBytes ++ p.data)) := by
  refine ⟨rfl, ?_⟩
  cases hf : p.FIN
  · refine ⟨TCPPacket.make 0 0 p.ack (p.seq + p.data.length) false true
      false false false false 0
      (65535 - checksum16Spec p.toBytes % 65536) 0 [] [], ?_⟩
    simp [TCPServer.receivePacketFixed, hf, TCPPacket.make, hin,
      TCPServer.resetForNextMessage]
  · refine ⟨{ TCPPacket.make 0 0 p.ack (p.seq + p.data.length) false true
      false false false false 0
      (65535 - checksum16Spec p.toBytes % 65536) 0 [] [] with
        FIN := true }, ?_⟩
    simp [TCPServer.receivePacketFixed, hf, TCPPacket.make, hin,
      TCPServer.resetForNextMessage]

/-- Witness for `receiver_inorder_ack`: the freshly initialised server
receiving the in-order FIN segment carrying "hi" (bytes 104 105) — the
source raises NameError, while the corrected-receiver model surfaces
[104, 105] and resets its buffer. -/
theorem receiver_inorder_ack_witness :
    TCPServer.receivePacket TCPServer.init
        (TCPPacket.make 0 0 0 0 false true false false false true 0 0 0 []
          [104, 105]) PriorityQueue.empty 0 =
      Except.error PyErr.nameError ∧
      (TCPServer.receivePacketFixed TCPServer.init
          (TCPPacket.make 0 0 0 0 false true false false false true 0 0 0 []
            [104, 105]) PriorityQueue.empty 0).2.2 = some [104, 105] ∧
      (TCPServer.receivePacketFixed TCPServer.init
          (TCPPacket.make 0 0 0 0 false true false false false true 0 0 0 []
            [104, 105]) PriorityQueue.empty 0).1.msgBytes = [] := by
  obtain ⟨h1, reply, h2, h3, h4, h5, h6, h7⟩ :=
    receiver_inorder_ack TCPServer.init
      (TCPPacket.make 0 0 0 0 false true false false false true 0 0 0 []
        [104, 105]) PriorityQueue.empty 0 rfl
  obtain ⟨h8, h9, h10⟩ := h7 rfl
  exact ⟨h1, h10, h8⟩
